import Mathlib

/-!
Verification model of the NoteTaker program (`notetaker.py`).

Strings are modelled as lists of characters (`Str`).  Python `datetime`
values are modelled at second resolution (`PyDate`), since the canonical
text format of the program truncates to seconds.  Exceptions are modelled
with `Option`/`Except`.
-/

/-- Python strings, modelled as lists of characters. -/
abbrev Str := List Char

/-- Conversion from a Lean string literal to the model's string type. -/
def str (s : String) : Str := s.data

/-- A Python `datetime.datetime` truncated to second resolution, which is the
resolution of the program's canonical text format `%y/%m/%d %H:%M:%S`. -/
structure PyDate where
  year : Nat
  month : Nat
  day : Nat
  hour : Nat
  minute : Nat
  second : Nat
deriving DecidableEq, Repr

/-- Gregorian leap-year test, as used by Python's `datetime` module. -/
def isLeap (y : Nat) : Bool := (y % 4 == 0 && y % 100 != 0) || y % 400 == 0

/-- Number of days of a month, as validated by Python's `datetime` constructor. -/
def daysInMonth (y m : Nat) : Nat :=
  if m = 2 then (if isLeap y then 29 else 28)
  else if m = 4 ∨ m = 6 ∨ m = 9 ∨ m = 11 then 30 else 31

/-- A field value printed by `strftime` with zero padding to two digits
(`%y`, `%m`, `%d`, `%H`, `%M`, `%S` on in-range data). -/
def pad2 (n : Nat) : Str :=
  if n < 10 then ['0', Nat.digitChar n] else [Nat.digitChar (n / 10), Nat.digitChar (n % 10)]

/-- Rendering of `Note.date_format = "%y/%m/%d %H:%M:%S"` by `strftime`
(`Note.__str__` formats the date with this format, between brackets). -/
def renderDate (d : PyDate) : Str :=
  pad2 (d.year % 100) ++ '/' :: (pad2 d.month ++ '/' :: (pad2 d.day ++
    ' ' :: (pad2 d.hour ++ ':' :: (pad2 d.minute ++ ':' :: pad2 d.second))))

/-- Numeric value of a decimal digit character, `none` on any other character. -/
def digitVal (c : Char) : Option Nat :=
  if c = '0' then some 0 else if c = '1' then some 1 else if c = '2' then some 2
  else if c = '3' then some 3 else if c = '4' then some 4 else if c = '5' then some 5
  else if c = '6' then some 6 else if c = '7' then some 7 else if c = '8' then some 8
  else if c = '9' then some 9 else none

/-- One numeric field of `strptime`: at most two decimal digits, greedily
(the `TimeRE` patterns of `_strptime` take two digits when available,
otherwise one; with this format a one-digit fallback after a successful
two-digit take can never rescue the match, so no backtracking is needed). -/
def parse2 (s : Str) : Option (Nat × Str) :=
  match s with
  | c1 :: c2 :: rest =>
    match digitVal c1, digitVal c2 with
    | some v1, some v2 => some (10 * v1 + v2, rest)
    | some v1, none => some (v1, c2 :: rest)
    | none, _ => none
  | [c1] =>
    match digitVal c1 with
    | some v1 => some (v1, [])
    | none => none
  | [] => none

/-- A literal separator character of the `strptime` format. -/
def expectC (c : Char) (s : Str) : Option Str :=
  match s with
  | c' :: rest => if c' = c then some rest else none
  | [] => none

/-- Model of `datetime.datetime.strptime(s, "%y/%m/%d %H:%M:%S")`:
the whole string must be consumed, `%y` maps `00..68` to `2000..2068` and
`69..99` to `1969..1999`, and the field values must form a valid datetime
(the `datetime` constructor rejects out-of-range components).  Failure
(`ValueError` in Python) is modelled as `none`. -/
def parseDate (s : Str) : Option PyDate :=
  (parse2 s).bind fun p1 =>
  (expectC '/' p1.2).bind fun s2 =>
  (parse2 s2).bind fun p2 =>
  (expectC '/' p2.2).bind fun s4 =>
  (parse2 s4).bind fun p3 =>
  (expectC ' ' p3.2).bind fun s6 =>
  (parse2 s6).bind fun p4 =>
  (expectC ':' p4.2).bind fun s8 =>
  (parse2 s8).bind fun p5 =>
  (expectC ':' p5.2).bind fun s10 =>
  (parse2 s10).bind fun p6 =>
  if p6.2 = [] ∧ 1 ≤ p2.1 ∧ p2.1 ≤ 12 ∧ p4.1 ≤ 23 ∧ p5.1 ≤ 59 ∧ p6.1 ≤ 59 then
    if 1 ≤ p3.1 ∧ p3.1 ≤ daysInMonth (if p1.1 ≤ 68 then 2000 + p1.1 else 1900 + p1.1) p2.1 then
      some ⟨if p1.1 ≤ 68 then 2000 + p1.1 else 1900 + p1.1, p2.1, p3.1, p4.1, p5.1, p6.1⟩
    else none
  else none

/-- A datetime value that Python's `datetime` constructor accepts and whose
year survives the two-digit `%y` encoding (`strptime` maps two-digit years
into `1969..2068`). -/
def validDate (d : PyDate) : Prop :=
  1969 ≤ d.year ∧ d.year ≤ 2068 ∧ 1 ≤ d.month ∧ d.month ≤ 12 ∧
    1 ≤ d.day ∧ d.day ≤ daysInMonth d.year d.month ∧
    d.hour ≤ 23 ∧ d.minute ≤ 59 ∧ d.second ≤ 59

instance (d : PyDate) : Decidable (validDate d) := by
  unfold validDate; infer_instance

theorem digitVal_digitChar (k : Nat) (hk : k ≤ 9) : digitVal (Nat.digitChar k) = some k := by
  interval_cases k <;> rfl

theorem parse2_pad2_cons (n : Nat) (c : Char) (rest : Str) (hn : n ≤ 99)
    (hc : digitVal c = none) : parse2 (pad2 n ++ c :: rest) = some (n, c :: rest) := by
  unfold pad2
  by_cases h : n < 10
  · simp only [if_pos h, List.cons_append, List.nil_append, parse2,
      digitVal_digitChar n (by omega)]
    have h0 : digitVal '0' = some 0 := rfl
    simp [h0, hc]
  · simp only [if_neg h, List.cons_append, List.nil_append, parse2,
      digitVal_digitChar (n / 10) (by omega), digitVal_digitChar (n % 10) (by omega), hc]
    have : 10 * (n / 10) + n % 10 = n := by omega
    simp [this]

theorem parse2_pad2_nil (n : Nat) (hn : n ≤ 99) : parse2 (pad2 n) = some (n, []) := by
  unfold pad2
  by_cases h : n < 10
  · simp only [if_pos h, parse2, digitVal_digitChar n (by omega)]
    have h0 : digitVal '0' = some 0 := rfl
    simp [h0]
  · simp only [if_neg h, parse2, digitVal_digitChar (n / 10) (by omega),
      digitVal_digitChar (n % 10) (by omega)]
    have : 10 * (n / 10) + n % 10 = n := by omega
    simp [this]

theorem expectC_cons (c : Char) (rest : Str) : expectC c (c :: rest) = some rest := by
  simp [expectC]

/-- Round trip of the date through the canonical text format: rendering with
`strftime` and parsing back with `strptime` recovers the same datetime for
any valid datetime with year in `1969..2068`. -/
theorem daysInMonth_le (y m : Nat) : daysInMonth y m ≤ 31 := by
  unfold daysInMonth; split_ifs <;> omega

theorem parseDate_renderDate (d : PyDate) (h : validDate d) :
    parseDate (renderDate d) = some d := by
  obtain ⟨h69, h68, hm1, hm2, hd1, hd2, hh, hmin, hsec⟩ := h
  have hdm := daysInMonth_le d.year d.month
  have hyy : d.year % 100 ≤ 99 := by omega
  have hslash : digitVal '/' = none := rfl
  have hspace : digitVal ' ' = none := rfl
  have hcolon : digitVal ':' = none := rfl
  have hyr : (if d.year % 100 ≤ 68 then 2000 + d.year % 100 else 1900 + d.year % 100) = d.year := by
    split_ifs with hc <;> omega
  unfold renderDate parseDate
  rw [parse2_pad2_cons _ _ _ hyy hslash]
  simp only [Option.some_bind]
  rw [expectC_cons]
  simp only [Option.some_bind]
  rw [parse2_pad2_cons _ _ _ (by omega) hslash]
  simp only [Option.some_bind]
  rw [expectC_cons]
  simp only [Option.some_bind]
  rw [parse2_pad2_cons _ _ _ (by omega : d.day ≤ 99) hspace]
  simp only [Option.some_bind]
  rw [expectC_cons]
  simp only [Option.some_bind]
  rw [parse2_pad2_cons _ _ _ (by omega) hcolon]
  simp only [Option.some_bind]
  rw [expectC_cons]
  simp only [Option.some_bind]
  rw [parse2_pad2_cons _ _ _ (by omega) hcolon]
  simp only [Option.some_bind]
  rw [expectC_cons]
  simp only [Option.some_bind]
  rw [parse2_pad2_nil _ (by omega)]
  simp only [Option.some_bind, hyr]
  rw [if_pos ⟨trivial, hm1, hm2, hh, hmin, hsec⟩, if_pos ⟨hd1, hd2⟩]

/-- Python `', '.join(parts)`. -/
def joinCS : List Str → Str
  | [] => []
  | [p] => p
  | p :: ps => p ++ ',' :: ' ' :: joinCS ps

/-- Whether the two-character separator `", "` occurs inside a string. -/
def hasCS : Str → Bool
  | [] => false
  | [_] => false
  | c1 :: c2 :: rest => if c1 = ',' ∧ c2 = ' ' then true else hasCS (c2 :: rest)

/-- Python `s.split(', ')`: scan left to right, cutting at each
non-overlapping occurrence of the separator. -/
def splitCS : Str → List Str
  | [] => [[]]
  | [c] => [[c]]
  | c1 :: c2 :: rest =>
    if c1 = ',' ∧ c2 = ' ' then [] :: splitCS rest
    else
      match splitCS (c2 :: rest) with
      | [] => [[c1]]
      | h :: t => (c1 :: h) :: t

theorem splitCS_sep (p : Str) (rest : Str) (hp : hasCS p = false) :
    splitCS (p ++ ',' :: ' ' :: rest) = p :: splitCS rest := by
  induction p with
  | nil => simp [splitCS]
  | cons c p' ih =>
    cases p' with
    | nil =>
      simp only [List.cons_append, List.nil_append, splitCS]
      rw [if_neg (by simp)]
      simp [splitCS]
    | cons c2 p'' =>
      have h1 : ¬(c = ',' ∧ c2 = ' ') := by
        intro hcc
        simp [hasCS, hcc] at hp
      have h2 : hasCS (c2 :: p'') = false := by
        simp only [hasCS] at hp
        split at hp
        · exact absurd hp (by simp)
        · exact hp
      have ih2 := ih h2
      rw [List.cons_append] at ih2
      show splitCS (c :: c2 :: (p'' ++ ',' :: ' ' :: rest)) = _
      simp only [splitCS]
      rw [if_neg h1, ih2]

theorem splitCS_no_sep (p : Str) (hp : hasCS p = false) : splitCS p = [p] := by
  induction p with
  | nil => rfl
  | cons c p' ih =>
    cases p' with
    | nil => rfl
    | cons c2 p'' =>
      have h1 : ¬(c = ',' ∧ c2 = ' ') := by
        intro hcc
        simp [hasCS, hcc] at hp
      have h2 : hasCS (c2 :: p'') = false := by
        simp only [hasCS] at hp
        split at hp
        · exact absurd hp (by simp)
        · exact hp
      simp only [splitCS]
      rw [if_neg h1, ih h2]

theorem splitCS_joinCS (parts : List Str) (h : parts ≠ [])
    (h2 : ∀ p ∈ parts, hasCS p = false) : splitCS (joinCS parts) = parts := by
  induction parts with
  | nil => exact absurd rfl h
  | cons p ps ih =>
    cases ps with
    | nil => exact splitCS_no_sep p (h2 p (by simp))
    | cons q qs =>
      show splitCS (p ++ ',' :: ' ' :: joinCS (q :: qs)) = _
      rw [splitCS_sep p _ (h2 p (by simp))]
      rw [ih (by simp) (fun r hr => h2 r (by simp [hr]))]

theorem mem_joinCS (parts : List Str) (c : Char) (hc : c ∈ joinCS parts) :
    (∃ p ∈ parts, c ∈ p) ∨ c = ',' ∨ c = ' ' := by
  induction parts with
  | nil => simp [joinCS] at hc
  | cons p ps ih =>
    cases ps with
    | nil =>
      exact Or.inl ⟨p, by simp, hc⟩
    | cons q qs =>
      rw [show joinCS (p :: q :: qs) = p ++ ',' :: ' ' :: joinCS (q :: qs) from rfl] at hc
      rcases List.mem_append.mp hc with h | h
      · exact Or.inl ⟨p, by simp, h⟩
      · rcases List.mem_cons.mp h with h1 | h'
        · exact Or.inr (Or.inl h1)
        · rcases List.mem_cons.mp h' with h2 | h''
          · exact Or.inr (Or.inr h2)
          · rcases ih h'' with ⟨r, hr, hcr⟩ | hcm
            · exact Or.inl ⟨r, by simp [hr], hcr⟩
            · exact Or.inr hcm

/-- Python's `\s` character class (the characters `re` treats as whitespace
for ASCII-compatible patterns). -/
def isWS (c : Char) : Bool :=
  decide (c = ' ' ∨ c = '\t' ∨ c = '\n' ∨ c = '\r' ∨ c = '\x0B' ∨ c = '\x0C')

/-- Whether a string is free of newline characters (`.` in a Python pattern
without `DOTALL` matches any character except a newline). -/
def noNl (s : Str) : Bool := decide ('\n' ∉ s)

/-- The character at an index equals `c`. -/
def chAt (s : Str) (k : Nat) (c : Char) : Bool := decide (s[k]? = some c)

/-- The character at an index is `\s`-whitespace. -/
def wsAt (s : Str) (k : Nat) : Bool :=
  match s[k]? with
  | some c => isWS c
  | none => false

/-- Candidate end position `j` of group 2 of `Note.note_pattern`
(`(@.*)\s\[(.*)\]\s:\s(.*)`), for a fixed end position `i` of group 1:
characters `]`, whitespace, `:`, whitespace must stand at `j..j+3` and
group 2 (`s[i+2..j)`) must contain no newline. -/
def validJ (s : Str) (i j : Nat) : Bool :=
  decide (i + 2 ≤ j) && chAt s j ']' && wsAt s (j + 1) && chAt s (j + 2) ':' &&
    wsAt s (j + 3) && noNl ((s.drop (i + 2)).take (j - (i + 2)))

/-- Whether some group 2 end position exists for group 1 ending at `i`. -/
def existsJ (s : Str) (i : Nat) : Bool :=
  (List.range (s.length + 1)).any (fun j => validJ s i j)

/-- Candidate end position `i` of group 1 (`@.*`) for a match starting at
`p`: an `@` at `p`, no newline inside the group, whitespace at `i`, a `[`
at `i+1`, and some valid group 2 after it. -/
def validI (s : Str) (p i : Nat) : Bool :=
  decide (p + 1 ≤ i) && chAt s p '@' && noNl ((s.drop (p + 1)).take (i - (p + 1))) &&
    wsAt s i && chAt s (i + 1) '[' && existsJ s i

/-- Greedy `(.*)`: everything up to the next newline or the end. -/
def takeLine (s : Str) : Str := s.takeWhile (fun c => c != '\n')

/-- Backtracking match of `Note.note_pattern` at start position `p`:
the greedy `(@.*)` takes the largest `i` admitting a completion, then the
greedy inner `(.*)` takes the largest `j`, and group 3 runs to the end of
the line.  Returns the three groups. -/
def matchAt (s : Str) (p : Nat) : Option (Str × Str × Str) :=
  match ((List.range (s.length + 1)).filter (fun i => validI s p i)).max? with
  | none => none
  | some i =>
    match ((List.range (s.length + 1)).filter (fun j => validJ s i j)).max? with
    | none => none
    | some j =>
      some ((s.drop p).take (i - p), (s.drop (i + 2)).take (j - (i + 2)),
        takeLine (s.drop (j + 4)))

/-- Python `re.search` over `Note.note_pattern`: the leftmost start
position admitting a match wins. -/
def pySearch (s : Str) : Option (Str × Str × Str) :=
  (List.range (s.length + 1)).findSome? (fun p => matchAt s p)

theorem le_foldl_max (a : Nat) (l : List Nat) : a ≤ l.foldl max a := by
  induction l generalizing a with
  | nil => exact Nat.le_refl a
  | cons b l ih => exact le_trans (Nat.le_max_left a b) (ih (max a b))

theorem mem_le_foldl_max (a : Nat) (l : List Nat) (y : Nat) (hy : y ∈ l) :
    y ≤ l.foldl max a := by
  induction l generalizing a with
  | nil => simp at hy
  | cons b l ih =>
    rcases List.mem_cons.mp hy with rfl | h
    · exact le_trans (Nat.le_max_right a y) (le_foldl_max _ l)
    · exact ih (max a b) h

theorem foldl_max_mem (a : Nat) (l : List Nat) : l.foldl max a = a ∨ l.foldl max a ∈ l := by
  induction l generalizing a with
  | nil => exact Or.inl rfl
  | cons b l ih =>
    show List.foldl max (max a b) l = a ∨ List.foldl max (max a b) l ∈ b :: l
    rcases ih (max a b) with h | h
    · rcases max_choice a b with hm | hm
      · rw [hm]; rw [hm] at h; exact Or.inl h
      · rw [hm]; rw [hm] at h; exact Or.inr (by simp [h])
    · exact Or.inr (by simp [h])

theorem max?_eq_of_ub (l : List Nat) (x : Nat) (hx : x ∈ l) (hub : ∀ y ∈ l, y ≤ x) :
    l.max? = some x := by
  cases l with
  | nil => simp at hx
  | cons a l =>
    show some (l.foldl max a) = some x
    congr 1
    apply Nat.le_antisymm
    · rcases foldl_max_mem a l with h | h
      · rw [h]; exact hub a (by simp)
      · exact hub _ (by simp [h])
    · rcases List.mem_cons.mp hx with rfl | h
      · exact le_foldl_max x l
      · exact mem_le_foldl_max a l x h

theorem takeLine_eq_self (s : Str) (h : noNl s = true) : takeLine s = s := by
  induction s with
  | nil => rfl
  | cons c rest ih =>
    simp only [noNl, decide_eq_true_eq, List.mem_cons, not_or] at h
    simp only [takeLine, List.takeWhile_cons]
    rw [if_pos (by simpa using Ne.symm h.1)]
    have := ih (by simp [noNl, h.2])
    simpa [takeLine] using this

/-- A note: a message, a list of labels, a creation timestamp
(class `Note` of `notetaker.py`; the timestamp at second resolution). -/
structure Note where
  message : Str
  labels : List Str
  date : PyDate
deriving DecidableEq, Repr

/-- `Note.__str__`: `@lab1, @lab2 [yy/mm/dd HH:MM:SS] : message`. -/
def noteStr (n : Note) : Str :=
  joinCS (n.labels.map (fun l => '@' :: l)) ++
    ' ' :: '[' :: (renderDate n.date ++ ']' :: ' ' :: ':' :: ' ' :: n.message)

/-- `Note.from_yaml`: run `note_pattern.search` on the scalar, split the
label block on `", "`, strip the leading `@` of each token, parse the date
with `strptime`.  A failed search (`AttributeError` on `.groups()`) or a
failed date parse (`ValueError`) is `none`. -/
def note_from_yaml (s : Str) : Option Note :=
  match pySearch s with
  | none => none
  | some (g1, g2, g3) =>
    match parseDate g2 with
    | none => none
    | some d => some ⟨g3, (splitCS g1).map (fun l => l.drop 1), d⟩

/-- A label whose text survives the round trip: no newline (the pattern's
`.` stops at newlines) and no embedded `", "` (the separator used by
`join`/`split`). -/
def wfLabel (l : Str) : Prop := '\n' ∉ l ∧ hasCS l = false

instance (l : Str) : Decidable (wfLabel l) := by
  unfold wfLabel; infer_instance

/-- A note whose canonical rendering parses back to the same note: labels
non-empty (`Note.__str__` of an empty label list has no `@`, so the search
fails) and each well formed, a message without `]` (a `] : `-like shape in
the message derails the greedy pattern) and without newline, and a valid
date with year in `1969..2068` (the two-digit `%y`). -/
def wfNote (n : Note) : Prop :=
  n.labels ≠ [] ∧ (∀ l ∈ n.labels, wfLabel l) ∧ ']' ∉ n.message ∧ '\n' ∉ n.message ∧
    validDate n.date

instance (n : Note) : Decidable (wfNote n) := by
  unfold wfNote; infer_instance


theorem getElem?_eq_drop (s : Str) (n k : Nat) : s[n + k]? = (s.drop n)[k]? :=
  (List.getElem?_drop s n k).symm

theorem pad2_mem (n : Nat) (hn : n ≤ 99) (c : Char) (hc : c ∈ pad2 n) :
    ∃ k, k ≤ 9 ∧ c = Nat.digitChar k := by
  unfold pad2 at hc
  by_cases h : n < 10
  · rw [if_pos h] at hc
    rcases List.mem_cons.mp hc with rfl | hc2
    · exact ⟨0, by omega, rfl⟩
    · rcases List.mem_cons.mp hc2 with rfl | hc3
      · exact ⟨n, by omega, rfl⟩
      · simp at hc3
  · rw [if_neg h] at hc
    rcases List.mem_cons.mp hc with rfl | hc2
    · exact ⟨n / 10, by omega, rfl⟩
    · rcases List.mem_cons.mp hc2 with rfl | hc3
      · exact ⟨n % 10, by omega, rfl⟩
      · simp at hc3

theorem renderDate_chars (d : PyDate) (hd : validDate d) (c : Char) (hc : c ∈ renderDate d) :
    c ≠ '[' ∧ c ≠ ']' ∧ c ≠ '\n' := by
  have hdig : ∀ k, k ≤ 9 → Nat.digitChar k ≠ '[' ∧ Nat.digitChar k ≠ ']' ∧
      Nat.digitChar k ≠ '\n' := by
    intro k hk; interval_cases k <;> exact ⟨by decide, by decide, by decide⟩
  obtain ⟨h69, h68, hm1, hm2, hd1, hd2, hh, hmin, hsec⟩ := hd
  have hdm := daysInMonth_le d.year d.month
  unfold renderDate at hc
  simp only [List.mem_append, List.mem_cons] at hc
  rcases hc with h | h | h | h | h | h | h | h | h | h | h
  · obtain ⟨k, hk, rfl⟩ := pad2_mem _ (by omega) c h; exact hdig k hk
  · subst h; exact ⟨by decide, by decide, by decide⟩
  · obtain ⟨k, hk, rfl⟩ := pad2_mem _ (by omega) c h; exact hdig k hk
  · subst h; exact ⟨by decide, by decide, by decide⟩
  · obtain ⟨k, hk, rfl⟩ := pad2_mem _ (by omega) c h; exact hdig k hk
  · subst h; exact ⟨by decide, by decide, by decide⟩
  · obtain ⟨k, hk, rfl⟩ := pad2_mem _ (by omega) c h; exact hdig k hk
  · subst h; exact ⟨by decide, by decide, by decide⟩
  · obtain ⟨k, hk, rfl⟩ := pad2_mem _ (by omega) c h; exact hdig k hk
  · subst h; exact ⟨by decide, by decide, by decide⟩
  · obtain ⟨k, hk, rfl⟩ := pad2_mem _ (by omega) c h; exact hdig k hk

theorem hasCS_amp (l : Str) : hasCS ('@' :: l) = hasCS l := by
  cases l with
  | nil => rfl
  | cons c2 rest =>
    show (if '@' = ',' ∧ c2 = ' ' then true else hasCS (c2 :: rest)) = _
    rw [if_neg (by simp)]

/-- Exact value of the backtracking match on a canonically shaped string:
label block `L` (no newline, starting with `@`), a date block `D` free of
brackets and newlines, and a message `M` free of `]` and newlines.  The
greedy group 1 stops exactly at the end of `L` and the greedy group 2
exactly at the end of `D`. -/
theorem matchAt_exact (L D M T : Str) (hL : L = '@' :: T)
    (hLnl : '\n' ∉ L) (hD1 : '[' ∉ D) (hD2 : ']' ∉ D) (hDnl : '\n' ∉ D)
    (hM2 : ']' ∉ M) (hMnl : '\n' ∉ M) :
    matchAt (L ++ ' ' :: '[' :: (D ++ ']' :: ' ' :: ':' :: ' ' :: M)) 0 = some (L, D, M) := by
  set R := L ++ ' ' :: '[' :: (D ++ ']' :: ' ' :: ':' :: ' ' :: M) with hRdef
  have ha1 : 1 ≤ L.length := by rw [hL]; simp
  have hRlen : R.length = L.length + 2 + D.length + 4 + M.length := by
    rw [hRdef]; simp only [List.length_append, List.length_cons]; omega
  have hdropA : R.drop L.length = ' ' :: '[' :: (D ++ ']' :: ' ' :: ':' :: ' ' :: M) := by
    rw [hRdef]; exact List.drop_left L _
  have htakeA : R.take L.length = L := by
    rw [hRdef]; exact List.take_left L _
  have hdropA2 : R.drop (L.length + 2) = D ++ ']' :: ' ' :: ':' :: ' ' :: M := by
    rw [← List.drop_drop, hdropA]
    rfl
  have hp0 : R[0]? = some '@' := by rw [hRdef, hL]; simp
  have hwsA : R[L.length]? = some ' ' := by
    have h1 := getElem?_eq_drop R L.length 0
    rw [Nat.add_zero] at h1
    rw [h1, hdropA]; simp
  have hbrk : R[L.length + 1]? = some '[' := by
    have h1 := getElem?_eq_drop R L.length 1
    rw [h1, hdropA]; simp
  have hXidx : ∀ u, (D ++ ']' :: ' ' :: ':' :: ' ' :: M)[D.length + u]? =
      (']' :: ' ' :: ':' :: ' ' :: M)[u]? := by
    intro u
    rw [List.getElem?_append, if_neg (by omega), show D.length + u - D.length = u from by omega]
  have hRq : ∀ u, R[L.length + 2 + (D.length + u)]? = (']' :: ' ' :: ':' :: ' ' :: M)[u]? := by
    intro u
    have h1 := getElem?_eq_drop R (L.length + 2) (D.length + u)
    rw [h1, hdropA2, hXidx]
  have hXM : ∀ u, (']' :: ' ' :: ':' :: ' ' :: M)[u + 4]? = M[u]? := by
    intro u
    rw [show u + 4 = u + 3 + 1 from rfl, List.getElem?_cons_succ,
      show u + 3 = u + 2 + 1 from rfl, List.getElem?_cons_succ,
      show u + 2 = u + 1 + 1 from rfl, List.getElem?_cons_succ, List.getElem?_cons_succ]
  have hq0 : R[L.length + 2 + D.length]? = some ']' := by
    rw [show L.length + 2 + D.length = L.length + 2 + (D.length + 0) from by omega, hRq 0]
    simp
  have hq1 : R[L.length + 2 + D.length + 1]? = some ' ' := by
    rw [show L.length + 2 + D.length + 1 = L.length + 2 + (D.length + 1) from by omega, hRq 1]
    simp
  have hq2 : R[L.length + 2 + D.length + 2]? = some ':' := by
    rw [show L.length + 2 + D.length + 2 = L.length + 2 + (D.length + 2) from by omega, hRq 2]
    simp
  have hq3 : R[L.length + 2 + D.length + 3]? = some ' ' := by
    rw [show L.length + 2 + D.length + 3 = L.length + 2 + (D.length + 3) from by omega, hRq 3]
    simp
  -- classification of every character strictly after the label block and the ` [`
  have hAfter : ∀ k c, L.length + 2 ≤ k → R[k]? = some c →
      (c ∈ D ∧ k < L.length + 2 + D.length) ∨
      (c = ']' ∧ k = L.length + 2 + D.length) ∨
      (c = ' ' ∧ k = L.length + 2 + D.length + 1) ∨
      (c = ':' ∧ k = L.length + 2 + D.length + 2) ∨
      (c = ' ' ∧ k = L.length + 2 + D.length + 3) ∨
      (c ∈ M ∧ L.length + 2 + D.length + 4 ≤ k) := by
    intro k c hk hc
    have h1 := getElem?_eq_drop R (L.length + 2) (k - (L.length + 2))
    rw [show L.length + 2 + (k - (L.length + 2)) = k from by omega] at h1
    rw [hdropA2] at h1
    have hx : (D ++ ']' :: ' ' :: ':' :: ' ' :: M)[k - (L.length + 2)]? = some c :=
      h1.symm.trans hc
    rw [List.getElem?_append] at hx
    by_cases hin : k - (L.length + 2) < D.length
    · rw [if_pos hin] at hx
      exact Or.inl ⟨List.getElem?_mem hx, by omega⟩
    · rw [if_neg hin] at hx
      generalize ht : k - (L.length + 2) - D.length = t at hx
      rcases Nat.lt_or_ge t 4 with h4 | h4
      · have ht4 : t = 0 ∨ t = 1 ∨ t = 2 ∨ t = 3 := by omega
        have e0 : (']' :: ' ' :: ':' :: ' ' :: M)[0]? = some ']' := by simp
        have e1 : (']' :: ' ' :: ':' :: ' ' :: M)[1]? = some ' ' := by simp
        have e2 : (']' :: ' ' :: ':' :: ' ' :: M)[2]? = some ':' := by simp
        have e3 : (']' :: ' ' :: ':' :: ' ' :: M)[3]? = some ' ' := by simp
        rcases ht4 with rfl | rfl | rfl | rfl
        · rw [e0] at hx
          exact Or.inr (Or.inl ⟨(Option.some.inj hx).symm, by omega⟩)
        · rw [e1] at hx
          exact Or.inr (Or.inr (Or.inl ⟨(Option.some.inj hx).symm, by omega⟩))
        · rw [e2] at hx
          exact Or.inr (Or.inr (Or.inr (Or.inl ⟨(Option.some.inj hx).symm, by omega⟩)))
        · rw [e3] at hx
          exact Or.inr (Or.inr (Or.inr (Or.inr (Or.inl ⟨(Option.some.inj hx).symm, by omega⟩))))
      · rw [show t = (t - 4) + 4 from by omega, hXM] at hx
        exact Or.inr (Or.inr (Or.inr (Or.inr (Or.inr ⟨List.getElem?_mem hx, by omega⟩))))
  -- the canonical group 2 end position is valid
  have hJq : validJ R L.length (L.length + 2 + D.length) = true := by
    have c6 : noNl ((R.drop (L.length + 2)).take (L.length + 2 + D.length - (L.length + 2))) =
        true := by
      rw [show L.length + 2 + D.length - (L.length + 2) = D.length from by omega, hdropA2,
        List.take_left]
      simp [noNl, hDnl]
    have c3 : wsAt R (L.length + 2 + D.length + 1) = true := by
      unfold wsAt; rw [hq1]; rfl
    have c5 : wsAt R (L.length + 2 + D.length + 3) = true := by
      unfold wsAt; rw [hq3]; rfl
    simp only [validJ, Bool.and_eq_true, decide_eq_true_eq, chAt]
    exact ⟨⟨⟨⟨⟨by omega, hq0⟩, c3⟩, hq2⟩, c5⟩, c6⟩
  -- no later group 2 end position is valid
  have hJub : ∀ j, validJ R L.length j = true → j ≤ L.length + 2 + D.length := by
    intro j hj
    simp only [validJ, Bool.and_eq_true, decide_eq_true_eq, chAt] at hj
    obtain ⟨⟨⟨⟨⟨hj1, hj2⟩, _⟩, _⟩, _⟩, _⟩ := hj
    rcases hAfter j ']' (by omega) hj2 with h | h | h | h | h | h
    · exact absurd h.1 hD2
    · omega
    · exact absurd h.1 (by decide)
    · exact absurd h.1 (by decide)
    · exact absurd h.1 (by decide)
    · exact absurd h.1 hM2
  -- the canonical group 1 end position is valid
  have hIa : validI R 0 L.length = true := by
    have hdrop1 : R.drop 1 = T ++ ' ' :: '[' :: (D ++ ']' :: ' ' :: ':' :: ' ' :: M) := by
      rw [hRdef, hL]; rfl
    have hTlen : T.length = L.length - 1 := by rw [hL]; simp
    have htake1 : (R.drop 1).take (L.length - 1) = T := by
      rw [hdrop1]; exact List.take_left' hTlen
    have hTnl : noNl ((R.drop (0 + 1)).take (L.length - (0 + 1))) = true := by
      rw [Nat.zero_add, htake1]
      simp only [noNl, decide_eq_true_eq]
      intro hmem
      exact hLnl (by rw [hL]; exact List.mem_cons_of_mem _ hmem)
    have hws : wsAt R L.length = true := by unfold wsAt; rw [hwsA]; rfl
    have hex : existsJ R L.length = true := by
      unfold existsJ
      rw [List.any_eq_true]
      exact ⟨L.length + 2 + D.length, List.mem_range.mpr (by omega), hJq⟩
    simp only [validI, Bool.and_eq_true, decide_eq_true_eq, chAt]
    exact ⟨⟨⟨⟨⟨by omega, hp0⟩, hTnl⟩, hws⟩, hbrk⟩, hex⟩
  -- no later group 1 end position is valid
  have hIub : ∀ i, validI R 0 i = true → i ≤ L.length := by
    intro i hi
    simp only [validI, Bool.and_eq_true, decide_eq_true_eq, chAt] at hi
    obtain ⟨⟨⟨⟨⟨hi1, hi2⟩, hi3⟩, hi4⟩, hi5⟩, hi6⟩ := hi
    by_contra hgt
    have hk : L.length + 2 ≤ i + 1 := by omega
    rcases hAfter (i + 1) '[' hk hi5 with h | h | h | h | h | h
    · exact absurd h.1 hD1
    · exact absurd h.1 (by decide)
    · exact absurd h.1 (by decide)
    · exact absurd h.1 (by decide)
    · exact absurd h.1 (by decide)
    · -- the `[` sits inside the message: no `]` can follow, so no group 2 exists
      unfold existsJ at hi6
      rw [List.any_eq_true] at hi6
      obtain ⟨j, _, hjv⟩ := hi6
      simp only [validJ, Bool.and_eq_true, decide_eq_true_eq, chAt] at hjv
      obtain ⟨⟨⟨⟨⟨hj1, hj2⟩, _⟩, _⟩, _⟩, _⟩ := hjv
      rcases hAfter j ']' (by omega) hj2 with g | g | g | g | g | g
      · omega
      · omega
      · exact absurd g.1 (by decide)
      · exact absurd g.1 (by decide)
      · exact absurd g.1 (by decide)
      · exact absurd g.1 hM2
  -- assemble: both greedy maxima are the canonical positions
  have hicands : ((List.range (R.length + 1)).filter (fun i => validI R 0 i)).max? =
      some L.length := by
    apply max?_eq_of_ub
    · rw [List.mem_filter]; exact ⟨List.mem_range.mpr (by omega), hIa⟩
    · intro y hy; rw [List.mem_filter] at hy; exact hIub y hy.2
  have hjcands : ((List.range (R.length + 1)).filter
      (fun j => validJ R L.length j)).max? = some (L.length + 2 + D.length) := by
    apply max?_eq_of_ub
    · rw [List.mem_filter]; exact ⟨List.mem_range.mpr (by omega), hJq⟩
    · intro y hy; rw [List.mem_filter] at hy; exact hJub y hy.2
  have hdropQ4 : R.drop (L.length + 2 + D.length + 4) = M := by
    rw [show L.length + 2 + D.length + 4 = (L.length + 2) + (D.length + 4) from by omega]
    rw [← List.drop_drop, hdropA2]
    rw [← List.drop_drop, List.drop_left]
    rfl
  simp only [matchAt, hicands, hjcands]
  simp only [Nat.sub_zero, List.drop_zero, htakeA]
  rw [show L.length + 2 + D.length - (L.length + 2) = D.length from by omega, hdropA2,
    List.take_left, hdropQ4, takeLine_eq_self M (by simp [noNl, hMnl])]

/-- The leftmost match of `re.search` on a canonically shaped string is the
match at position 0. -/
theorem pySearch_exact (L D M T : Str) (hL : L = '@' :: T)
    (hLnl : '\n' ∉ L) (hD1 : '[' ∉ D) (hD2 : ']' ∉ D) (hDnl : '\n' ∉ D)
    (hM2 : ']' ∉ M) (hMnl : '\n' ∉ M) :
    pySearch (L ++ ' ' :: '[' :: (D ++ ']' :: ' ' :: ':' :: ' ' :: M)) = some (L, D, M) := by
  have hm := matchAt_exact L D M T hL hLnl hD1 hD2 hDnl hM2 hMnl
  unfold pySearch
  rw [List.range_succ_eq_map]
  simp only [List.findSome?, hm]

/-- Round trip of a well-formed note through the canonical text form:
`Note.from_yaml` applied to `Note.__str__` recovers the same note. -/
theorem noteStr_roundtrip (n : Note) (h : wfNote n) : note_from_yaml (noteStr n) = some n := by
  obtain ⟨hne, hlabs, hmsg1, hmsg2, hdate⟩ := h
  obtain ⟨l0, ls, hcons⟩ : ∃ l0 ls, n.labels = l0 :: ls := by
    cases hval : n.labels with
    | nil => exact absurd hval hne
    | cons a b => exact ⟨a, b, rfl⟩
  have hparts : n.labels.map (fun l => '@' :: l) = ('@' :: l0) :: ls.map (fun l => '@' :: l) := by
    rw [hcons]; rfl
  obtain ⟨T, hT⟩ : ∃ T, joinCS (n.labels.map (fun l => '@' :: l)) = '@' :: T := by
    rw [hparts]
    cases hls : ls.map (fun l => '@' :: l) with
    | nil => exact ⟨l0, rfl⟩
    | cons q qs => exact ⟨l0 ++ ',' :: ' ' :: joinCS (q :: qs), rfl⟩
  have hLnl : '\n' ∉ joinCS (n.labels.map (fun l => '@' :: l)) := by
    intro hmem
    rcases mem_joinCS _ _ hmem with ⟨p, hp, hcp⟩ | hcm | hcm
    · obtain ⟨lab, hlab, rfl⟩ := List.mem_map.mp hp
      rcases List.mem_cons.mp hcp with h1 | h1
      · exact absurd h1 (by decide)
      · exact ((hlabs lab hlab).1) h1
    · exact absurd hcm (by decide)
    · exact absurd hcm (by decide)
  have hDc := renderDate_chars n.date hdate
  have hD1 : '[' ∉ renderDate n.date := fun hm => ((hDc '[' hm).1 rfl)
  have hD2 : ']' ∉ renderDate n.date := fun hm => ((hDc ']' hm).2.1 rfl)
  have hDnl : '\n' ∉ renderDate n.date := fun hm => ((hDc '\n' hm).2.2 rfl)
  have hps := pySearch_exact (joinCS (n.labels.map (fun l => '@' :: l))) (renderDate n.date)
      n.message T hT hLnl hD1 hD2 hDnl hmsg1 hmsg2
  have hsplit : splitCS (joinCS (n.labels.map (fun l => '@' :: l))) =
      n.labels.map (fun l => '@' :: l) := by
    apply splitCS_joinCS
    · rw [hparts]; simp
    · intro p hp
      obtain ⟨lab, hlab, rfl⟩ := List.mem_map.mp hp
      rw [hasCS_amp]
      exact (hlabs lab hlab).2
  have hpd := parseDate_renderDate n.date hdate
  simp only [note_from_yaml, noteStr, hps, hpd, hsplit]
  rw [List.map_map]
  rw [show ((fun l : Str => l.drop 1) ∘ fun l => '@' :: l) = id from funext fun l => rfl,
    List.map_id]

/-- Lookup in a Python dict modelled as an insertion-ordered association
list with unique keys (first matching entry). -/
def alookup {α β : Type} [DecidableEq α] : List (α × β) → α → Option β
  | [], _ => none
  | (k, v) :: rest, key => if key = k then some v else alookup rest key

/-- Python `d[k] = v`: replace the value in place if the key is present,
otherwise append the new entry at the end (insertion order). -/
def setv {α β : Type} [DecidableEq α] : List (α × β) → α → β → List (α × β)
  | [], k, v => [(k, v)]
  | (k', v') :: rest, k, v =>
    if k = k' then (k, v) :: rest else (k', v') :: setv rest k v

/-- Python `d.pop(k)`: drop the first entry with the given key. -/
def eraseKey {α β : Type} [DecidableEq α] : List (α × β) → α → List (α × β)
  | [], _ => []
  | (k', v') :: rest, k => if k = k' then rest else (k', v') :: eraseKey rest k

/-- `self.label_id_map.setdefault(lab, []).append(note_id)`: append the id to
the label's list in place, creating the entry at the end if absent. -/
def appendAt (m : List (Str × List Nat)) (lab : Str) (noteId : Nat) : List (Str × List Nat) :=
  match alookup m lab with
  | none => m ++ [(lab, [noteId])]
  | some ids => setv m lab (ids ++ [noteId])

/-- Python `str.lower` on an ASCII character (the labels of the program are
ASCII; the Unicode cases of `str.lower` are outside this model). -/
def lowerChar (c : Char) : Char :=
  match c with
  | 'A' => 'a' | 'B' => 'b' | 'C' => 'c' | 'D' => 'd' | 'E' => 'e' | 'F' => 'f'
  | 'G' => 'g' | 'H' => 'h' | 'I' => 'i' | 'J' => 'j' | 'K' => 'k' | 'L' => 'l'
  | 'M' => 'm' | 'N' => 'n' | 'O' => 'o' | 'P' => 'p' | 'Q' => 'q' | 'R' => 'r'
  | 'S' => 's' | 'T' => 't' | 'U' => 'u' | 'V' => 'v' | 'W' => 'w' | 'X' => 'x'
  | 'Y' => 'y' | 'Z' => 'z'
  | c => c

/-- Python `str.lower` over a whole (ASCII) string. -/
def lowerStr (s : Str) : Str := s.map lowerChar

/-- The ASCII uppercase letters. -/
def upperChars : List Char :=
  ['A', 'B', 'C', 'D', 'E', 'F', 'G', 'H', 'I', 'J', 'K', 'L', 'M',
   'N', 'O', 'P', 'Q', 'R', 'S', 'T', 'U', 'V', 'W', 'X', 'Y', 'Z']

/-- The collection of notes (class `NoteTaker` of `notetaker.py`):
`current_id` (the next id to assign), the primary dict `notes` and the
secondary dict `label_id_map`, both insertion ordered. -/
structure NoteTaker where
  current_id : Nat
  notes : List (Nat × Note)
  label_id_map : List (Str × List Nat)
deriving DecidableEq, Repr

/-- `NoteTaker.__init__`: an empty collection. -/
def emptyNT : NoteTaker := ⟨0, [], []⟩

/-- `NoteTaker.add_note(message, *labels)`: empty labels become
`["undefined"]`, otherwise each label is lowercased in caller order
(duplicates kept); the note is stored under `current_id`, the id is
appended to each label's index list, and `current_id` is incremented.
The wall-clock timestamp is passed in explicitly. -/
def add_note (nt : NoteTaker) (message : Str) (labels : List Str) (now : PyDate) : NoteTaker :=
  let note_labels := if labels.isEmpty then [str "undefined"] else labels.map lowerStr
  let new_note : Note := ⟨message, note_labels, now⟩
  let notes' := setv nt.notes nt.current_id new_note
  let lmap' := note_labels.foldl (fun m lab => appendAt m lab nt.current_id) nt.label_id_map
  ⟨nt.current_id + 1, notes', lmap'⟩

/-- One step of `delete_note`'s loop:
`self.label_id_map[lab].remove(note_id)`.  A missing key raises `KeyError`
and a missing list element raises `ValueError`; both carry the map as
mutated so far. -/
def removeFrom (m : List (Str × List Nat)) (lab : Str) (noteId : Nat) :
    Except (List (Str × List Nat)) (List (Str × List Nat)) :=
  match alookup m lab with
  | none => .error m
  | some ids => if noteId ∈ ids then .ok (setv m lab (ids.erase noteId)) else .error m

/-- `NoteTaker.delete_note(note_id)`: look the note up (`KeyError` if the
id is absent, before any mutation), pop it from `notes`, then remove the id
from each of the note's labels' lists.  `Except.error` carries the state of
the collection at the time the exception escapes. -/
def delete_note (nt : NoteTaker) (noteId : Nat) : Except NoteTaker NoteTaker :=
  match alookup nt.notes noteId with
  | none => .error nt
  | some note =>
    let notes' := eraseKey nt.notes noteId
    match note.labels.foldlM (fun m lab => removeFrom m lab noteId) nt.label_id_map with
    | .error m' => .error ⟨nt.current_id, notes', m'⟩
    | .ok m' => .ok ⟨nt.current_id, notes', m'⟩

/-- `NoteTaker.find_note_id(label)`: `self.label_id_map[label]` (a missing
label raises `KeyError`, modelled as `none`) filtered to ids still present
in `notes`. -/
def find_note_id (nt : NoteTaker) (label : Str) : Option (List Nat) :=
  match alookup nt.label_id_map label with
  | none => none
  | some ids => some (ids.filter (fun i => (alookup nt.notes i).isSome))

/-- The argument of `find_note`: a Python `int` or a Python `str` (the two
dicts are keyed by different types, so an `int` can only hit `notes` and a
`str` only `label_id_map`). -/
inductive SearchField where
  | fid : Nat → SearchField
  | flabel : Str → SearchField
deriving DecidableEq, Repr

/-- `NoteTaker.find_note(field)`: try the id lookup in `notes`, then the
label lookup through `find_note_id` (its `KeyError` is caught and
ignored), merging both results into one mapping. -/
def find_note (nt : NoteTaker) (field : SearchField) : List (Nat × Note) :=
  let res : List (Nat × Note) :=
    match field with
    | .fid i =>
      match alookup nt.notes i with
      | some note => [(i, note)]
      | none => []
    | .flabel _ => []
  match field with
  | .fid _ => res
  | .flabel lab =>
    match find_note_id nt lab with
    | none => res
    | some ids =>
      ids.foldl (fun r i =>
        match alookup nt.notes i with
        | some note => setv r i note
        | none => r) res

/-- `NoteTaker.to_yaml`: the persisted document is the `notes` mapping,
each note represented by its canonical scalar `str(note)`. -/
def nt_to_yaml (nt : NoteTaker) : List (Nat × Str) :=
  nt.notes.map (fun p => (p.1, noteStr p.2))

/-- Parse every persisted scalar with `Note.from_yaml`, keeping document
order; any failure aborts the whole load. -/
def parseAll : List (Nat × Str) → Option (List (Nat × Note))
  | [] => some []
  | (i, s) :: rest =>
    match note_from_yaml s with
    | none => none
    | some n => (parseAll rest).map (fun l => (i, n) :: l)

/-- Rebuild of `label_id_map` by `NoteTaker.from_yaml`: scan the recovered
notes in document order and append each id to each of its labels' lists. -/
def buildIndex (pairs : List (Nat × Note)) : List (Str × List Nat) :=
  pairs.foldl (fun m p => p.2.labels.foldl (fun m' lab => appendAt m' lab p.1) m) []

/-- `NoteTaker.from_yaml`: construct the mapping (parsing every note), set
`current_id = max(keys) + 1` (`max()` raises `ValueError` on an empty
mapping, modelled as `none`), and rebuild `label_id_map`. -/
def nt_from_yaml (pairs : List (Nat × Str)) : Option NoteTaker :=
  match parseAll pairs with
  | none => none
  | some d =>
    match (d.map Prod.fst).max? with
    | none => none
    | some m => some ⟨m + 1, d, buildIndex d⟩

/-- Invariant A of the specification: every label of every stored note maps
in `label_id_map` to a list containing that note's id. -/
def invariantA (nt : NoteTaker) : Prop :=
  ∀ i note, (i, note) ∈ nt.notes → ∀ lab ∈ note.labels,
    ∃ ids, alookup nt.label_id_map lab = some ids ∧ i ∈ ids

theorem alookup_setv_self {α β : Type} [DecidableEq α] (xs : List (α × β)) (k : α) (v : β) :
    alookup (setv xs k v) k = some v := by
  induction xs with
  | nil => simp [setv, alookup]
  | cons p rest ih =>
    obtain ⟨k', v'⟩ := p
    by_cases h : k = k'
    · simp [setv, h, alookup]
    · simp [setv, h, alookup, ih]

theorem alookup_setv_ne {α β : Type} [DecidableEq α] (xs : List (α × β)) (k k' : α) (v : β)
    (h : k' ≠ k) : alookup (setv xs k v) k' = alookup xs k' := by
  induction xs with
  | nil => simp [setv, alookup, h]
  | cons p rest ih =>
    obtain ⟨a, b⟩ := p
    by_cases hk : k = a
    · subst hk
      simp [setv, alookup, h, ih]
    · simp only [setv, if_neg hk, alookup]
      by_cases hk' : k' = a
      · simp [hk']
      · simp [hk', ih]

theorem alookup_append_right {α β : Type} [DecidableEq α] (xs ys : List (α × β)) (k : α)
    (h : alookup xs k = none) : alookup (xs ++ ys) k = alookup ys k := by
  induction xs with
  | nil => simp
  | cons p rest ih =>
    obtain ⟨a, b⟩ := p
    simp only [alookup] at h
    by_cases hk : k = a
    · simp [hk] at h
    · simp only [List.cons_append, alookup, if_neg hk]
      exact ih (by simpa [if_neg hk] using h)

theorem alookup_append_single_ne {α β : Type} [DecidableEq α] (xs : List (α × β))
    (k k' : α) (v : β) (h : k' ≠ k) : alookup (xs ++ [(k, v)]) k' = alookup xs k' := by
  induction xs with
  | nil => simp [alookup, h]
  | cons p rest ih =>
    obtain ⟨a, b⟩ := p
    by_cases hk : k' = a
    · simp [alookup, hk]
    · simp [alookup, hk, ih]

theorem alookup_appendAt_self (m : List (Str × List Nat)) (lab : Str) (i : Nat) :
    alookup (appendAt m lab i) lab = some ((alookup m lab).getD [] ++ [i]) := by
  unfold appendAt
  cases h : alookup m lab with
  | none =>
    rw [alookup_append_right m _ lab h]
    simp [alookup]
  | some ids =>
    rw [alookup_setv_self]
    simp

theorem alookup_appendAt_ne (m : List (Str × List Nat)) (lab lab' : Str) (i : Nat)
    (h : lab' ≠ lab) : alookup (appendAt m lab i) lab' = alookup m lab' := by
  unfold appendAt
  cases hl : alookup m lab with
  | none => exact alookup_append_single_ne m lab lab' [i] h
  | some ids => exact alookup_setv_ne m lab lab' (ids ++ [i]) h

/-- Membership of a note id in a label's index list. -/
def idIn (m : List (Str × List Nat)) (lab : Str) (i : Nat) : Prop :=
  ∃ ids, alookup m lab = some ids ∧ i ∈ ids

theorem idIn_appendAt (m : List (Str × List Nat)) (lab' : Str) (i' : Nat) (lab : Str) (i : Nat)
    (h : idIn m lab' i') : idIn (appendAt m lab i) lab' i' := by
  obtain ⟨ids, h1, h2⟩ := h
  by_cases he : lab' = lab
  · subst he
    refine ⟨_, alookup_appendAt_self m lab' i, ?_⟩
    rw [h1]
    simp [h2]
  · exact ⟨ids, by rw [alookup_appendAt_ne m lab lab' i he, h1], h2⟩

theorem idIn_appendAt_self (m : List (Str × List Nat)) (lab : Str) (i : Nat) :
    idIn (appendAt m lab i) lab i :=
  ⟨_, alookup_appendAt_self m lab i, by simp⟩

theorem idIn_foldl_pres (labs : List Str) (i : Nat) (m : List (Str × List Nat))
    (lab' : Str) (i' : Nat) (h : idIn m lab' i') :
    idIn (labs.foldl (fun m' lab => appendAt m' lab i) m) lab' i' := by
  induction labs generalizing m with
  | nil => exact h
  | cons a rest ih => exact ih _ (idIn_appendAt m lab' i' a i h)

theorem idIn_foldl_self (labs : List Str) (i : Nat) (m : List (Str × List Nat))
    (lab : Str) (hlab : lab ∈ labs) :
    idIn (labs.foldl (fun m' lab => appendAt m' lab i) m) lab i := by
  induction labs generalizing m with
  | nil => simp at hlab
  | cons a rest ih =>
    rcases List.mem_cons.mp hlab with rfl | h
    · exact idIn_foldl_pres rest i _ lab i (idIn_appendAt_self m lab i)
    · exact ih (appendAt m a i) h

theorem buildIndex_aux (pairs : List (Nat × Note)) (m : List (Str × List Nat)) :
    (∀ i note, (i, note) ∈ pairs → ∀ lab ∈ note.labels,
      idIn (pairs.foldl (fun acc p => p.2.labels.foldl
        (fun m' lab => appendAt m' lab p.1) acc) m) lab i) ∧
    (∀ lab' i', idIn m lab' i' →
      idIn (pairs.foldl (fun acc p => p.2.labels.foldl
        (fun m' lab => appendAt m' lab p.1) acc) m) lab' i') := by
  induction pairs generalizing m with
  | nil => exact ⟨by simp, fun _ _ h => h⟩
  | cons p rest ih =>
    constructor
    · intro i note hmem lab hlab
      rcases List.mem_cons.mp hmem with heq | hmem'
      · have h1 : idIn (p.2.labels.foldl (fun m' lab => appendAt m' lab p.1) m) lab i := by
          rw [← heq]
          exact idIn_foldl_self note.labels i m lab hlab
        exact (ih _).2 lab i h1
      · exact (ih _).1 i note hmem' lab hlab
    · intro lab' i' h
      exact (ih _).2 lab' i' (idIn_foldl_pres p.2.labels p.1 m lab' i' h)

theorem buildIndex_invariantA (pairs : List (Nat × Note)) :
    ∀ i note, (i, note) ∈ pairs → ∀ lab ∈ note.labels, idIn (buildIndex pairs) lab i :=
  (buildIndex_aux pairs []).1

theorem parseAll_map (l : List (Nat × Note)) (h : ∀ p ∈ l, wfNote p.2) :
    parseAll (l.map (fun p => (p.1, noteStr p.2))) = some l := by
  induction l with
  | nil => rfl
  | cons p rest ih =>
    obtain ⟨i, note⟩ := p
    simp only [List.map_cons, parseAll]
    rw [noteStr_roundtrip note (h (i, note) (by simp))]
    rw [ih (fun q hq => h q (by simp [hq]))]
    rfl

/-- A call of the core mutators: an `add_note` (with its wall-clock
timestamp) or a `delete_note`. -/
inductive NTOp where
  | add : Str → List Str → PyDate → NTOp
  | del : Nat → NTOp

/-- The collection after a `delete_note` call, whether or not the call
raised (the raised exception leaves the in-memory object as mutated so
far). -/
def delResult (r : Except NoteTaker NoteTaker) : NoteTaker :=
  match r with
  | .ok nt => nt
  | .error nt => nt

/-- Run a sequence of calls, collecting the id assigned by each
`add_note` (the key the new note is stored under). -/
def runOps : NoteTaker → List NTOp → NoteTaker × List Nat
  | nt, [] => (nt, [])
  | nt, NTOp.add msg labs d :: rest =>
    let r := runOps (add_note nt msg labs d) rest
    (r.1, nt.current_id :: r.2)
  | nt, NTOp.del i :: rest => runOps (delResult (delete_note nt i)) rest

/-- Number of `add_note` calls in a sequence. -/
def numAdds : List NTOp → Nat
  | [] => 0
  | NTOp.add _ _ _ :: rest => numAdds rest + 1
  | NTOp.del _ :: rest => numAdds rest

theorem delete_note_current_id (nt : NoteTaker) (i : Nat) :
    (delResult (delete_note nt i)).current_id = nt.current_id := by
  cases h : alookup nt.notes i with
  | none => simp [delete_note, delResult, h]
  | some note =>
    cases h2 : note.labels.foldlM (fun m lab => removeFrom m lab i) nt.label_id_map with
    | error m' => simp [delete_note, delResult, h, h2]
    | ok m' => simp [delete_note, delResult, h, h2]

theorem runOps_ids (ops : List NTOp) : ∀ nt : NoteTaker,
    (runOps nt ops).2 = (List.range (numAdds ops)).map (fun k => k + nt.current_id) := by
  induction ops with
  | nil => intro nt; simp [runOps, numAdds]
  | cons op rest ih =>
    intro nt
    cases op with
    | add msg labs d =>
      simp only [runOps, numAdds]
      rw [ih (add_note nt msg labs d)]
      have hcid : (add_note nt msg labs d).current_id = nt.current_id + 1 := rfl
      rw [hcid, List.range_succ_eq_map, List.map_cons, List.map_map]
      have harith : ((fun k => k + nt.current_id) ∘ fun k => k + 1) =
          (fun k => k + (nt.current_id + 1)) := funext fun k => by simp; omega
      rw [harith]
      simp
    | del i =>
      simp only [runOps, numAdds]
      rw [ih (delResult (delete_note nt i)), delete_note_current_id]

theorem lowerChar_eq_of_not_upper (c : Char) (h : c ∉ upperChars) : lowerChar c = c := by
  unfold lowerChar
  split <;> first | rfl | exact absurd (by decide) h

theorem lowerChar_not_upper (c : Char) : lowerChar c ∉ upperChars := by
  by_cases h : c ∈ upperChars
  · fin_cases h <;> decide
  · rw [lowerChar_eq_of_not_upper c h]; exact h

theorem lowerStr_no_upper (s : Str) (c : Char) (hc : c ∈ lowerStr s) : c ∉ upperChars := by
  obtain ⟨c', _, rfl⟩ := List.mem_map.mp hc
  exact lowerChar_not_upper c'

/-- No key of the label index contains an ASCII uppercase letter. -/
def keysNoUpper (m : List (Str × List Nat)) : Prop :=
  ∀ p ∈ m, ∀ c ∈ p.1, c ∉ upperChars

theorem setv_mem {α β : Type} [DecidableEq α] (m : List (α × β)) (k : α) (v : β)
    (p : α × β) (hp : p ∈ setv m k v) : p.1 = k ∨ p ∈ m := by
  induction m with
  | nil =>
    simp only [setv, List.mem_singleton] at hp
    exact Or.inl (by rw [hp])
  | cons q rest ih =>
    obtain ⟨k', v'⟩ := q
    simp only [setv] at hp
    split at hp
    · rcases List.mem_cons.mp hp with rfl | h
      · exact Or.inl rfl
      · exact Or.inr (List.mem_cons_of_mem _ h)
    · rcases List.mem_cons.mp hp with rfl | h
      · exact Or.inr (List.mem_cons_self _ _)
      · rcases ih h with h1 | h1
        · exact Or.inl h1
        · exact Or.inr (List.mem_cons_of_mem _ h1)

theorem appendAt_mem (m : List (Str × List Nat)) (lab : Str) (i : Nat)
    (p : Str × List Nat) (hp : p ∈ appendAt m lab i) : p.1 = lab ∨ p ∈ m := by
  unfold appendAt at hp
  split at hp
  · rcases List.mem_append.mp hp with h1 | h1
    · exact Or.inr h1
    · simp only [List.mem_singleton] at h1
      exact Or.inl (by rw [h1])
  · exact setv_mem m lab _ p hp

theorem keysNoUpper_foldl (ls : List Str) (i : Nat)
    (hls : ∀ lab ∈ ls, ∀ c ∈ lab, c ∉ upperChars) :
    ∀ m, keysNoUpper m → keysNoUpper (ls.foldl (fun m' lab => appendAt m' lab i) m) := by
  induction ls with
  | nil => intro m hm; exact hm
  | cons a rest ih =>
    intro m hm
    refine ih (fun lab hlab => hls lab (by simp [hlab])) _ ?_
    intro p hp
    rcases appendAt_mem m a i p hp with h1 | h1
    · rw [h1]; exact hls a (by simp)
    · exact hm p h1

theorem add_note_keysNoUpper (nt : NoteTaker) (msg : Str) (labs : List Str) (d : PyDate)
    (h : keysNoUpper nt.label_id_map) :
    keysNoUpper (add_note nt msg labs d).label_id_map := by
  apply keysNoUpper_foldl
  · intro lab hlab c hc
    split at hlab
    · simp only [List.mem_singleton] at hlab
      subst hlab
      exact (by decide : ∀ c ∈ str "undefined", c ∉ upperChars) c hc
    · obtain ⟨l, _, rfl⟩ := List.mem_map.mp hlab
      exact lowerStr_no_upper l c hc
  · exact h

/-- A collection built from the empty one by `add_note` calls only. -/
def runAdds (l : List (Str × List Str × PyDate)) : NoteTaker :=
  l.foldl (fun nt t => add_note nt t.1 t.2.1 t.2.2) emptyNT

theorem runAdds_keysNoUpper (l : List (Str × List Str × PyDate)) :
    keysNoUpper (runAdds l).label_id_map := by
  suffices h : ∀ nt, keysNoUpper nt.label_id_map →
      keysNoUpper (l.foldl (fun nt t => add_note nt t.1 t.2.1 t.2.2) nt).label_id_map by
    exact h emptyNT (by intro p hp; simp [emptyNT] at hp)
  induction l with
  | nil => intro nt hnt; exact hnt
  | cons t rest ih =>
    intro nt hnt
    exact ih _ (add_note_keysNoUpper nt t.1 t.2.1 t.2.2 hnt)

theorem alookup_eq_none {α β : Type} [DecidableEq α] (m : List (α × β)) (k : α)
    (h : ∀ p ∈ m, k ≠ p.1) : alookup m k = none := by
  induction m with
  | nil => rfl
  | cons q rest ih =>
    obtain ⟨k', v'⟩ := q
    simp only [alookup]
    rw [if_neg (h (k', v') (by simp))]
    exact ih (fun p hp => h p (by simp [hp]))

theorem except_bind_error {ε α β : Type} (e : ε) (f : α → Except ε β) :
    (Except.error e >>= f) = (Except.error e : Except ε β) := rfl

theorem except_bind_ok {ε α β : Type} (a : α) (f : α → Except ε β) :
    (Except.ok a >>= f) = f a := rfl

theorem foldlM_remove_fails (labs : List Str) (i : Nat) :
    ∀ m : List (Str × List Nat), (∃ lab ∈ labs, i ∉ (alookup m lab).getD []) →
    ∃ m', labs.foldlM (fun m lab => removeFrom m lab i) m = Except.error m' := by
  induction labs with
  | nil =>
    intro m h
    obtain ⟨lab, h1, _⟩ := h
    simp at h1
  | cons a rest ih =>
    intro m h
    obtain ⟨lab, hmem, hnot⟩ := h
    rcases List.mem_cons.mp hmem with rfl | hrest
    · -- the head label itself is the drifted one, so the first `remove` raises
      refine ⟨m, ?_⟩
      rw [List.foldlM_cons]
      cases hma : alookup m lab with
      | none =>
        rw [show removeFrom m lab i = Except.error m from by simp [removeFrom, hma]]
        exact except_bind_error m _
      | some ids =>
        have hni : i ∉ ids := by simpa [hma] using hnot
        rw [show removeFrom m lab i = Except.error m from by simp [removeFrom, hma, hni]]
        exact except_bind_error m _
    · cases hr : removeFrom m a i with
      | error m2 =>
        refine ⟨m2, ?_⟩
        rw [List.foldlM_cons, hr, except_bind_error]
      | ok m2 =>
        -- the head succeeded, so the drifted label differs from it and its
        -- entry is untouched by `setv` on the head's key
        have hm2 : ∃ ids, alookup m a = some ids ∧ i ∈ ids ∧ m2 = setv m a (ids.erase i) := by
          cases hma : alookup m a with
          | none =>
            rw [show removeFrom m a i = Except.error m from by simp [removeFrom, hma]] at hr
            exact absurd hr (by simp)
          | some ids =>
            by_cases hin : i ∈ ids
            · rw [show removeFrom m a i = Except.ok (setv m a (ids.erase i)) from by
                simp [removeFrom, hma, hin]] at hr
              exact ⟨ids, rfl, hin, (Except.ok.inj hr).symm⟩
            · rw [show removeFrom m a i = Except.error m from by
                simp [removeFrom, hma, hin]] at hr
              exact absurd hr (by simp)
        obtain ⟨ids, hma, hin, hm2eq⟩ := hm2
        have hne : lab ≠ a := by
          intro he
          rw [he, hma] at hnot
          exact hnot hin
        have hpres : alookup m2 lab = alookup m lab := by
          rw [hm2eq]
          exact alookup_setv_ne m a lab (ids.erase i) hne
        obtain ⟨m', hm'⟩ := ih m2 ⟨lab, hrest, by rw [hpres]; exact hnot⟩
        refine ⟨m', ?_⟩
        rw [List.foldlM_cons, hr, except_bind_ok, hm']

/-- C1 counterexample: the round trip `Parse(Render(n))` does not recover
every note.  A message containing a bracketed block followed by ` : `
derails the greedy pattern: the date group then fails `strptime` and the
parse raises instead of returning the note. -/
theorem c1_counterexample :
    note_from_yaml (noteStr ⟨str "a] : b", [str "l"], ⟨2018, 12, 31, 12, 36, 11⟩⟩) ≠
      some ⟨str "a] : b", [str "l"], ⟨2018, 12, 31, 12, 36, 11⟩⟩ := by
  decide

/-- C1 (amended): for every note with a non-empty list of labels, each label
free of newlines and of the separator `", "`, a message free of `]` and of
newlines, and a valid timestamp with year in `1969..2068` (at second
resolution), parsing the canonical rendering recovers the same note:
`Note.from_yaml (Note.__str__ n) = some n`. -/
theorem c1_parse_render_roundtrip (n : Note) (h : wfNote n) :
    note_from_yaml (noteStr n) = some n :=
  noteStr_roundtrip n h

/-- Witness for C1 at a concrete well-formed note. -/
theorem c1_parse_render_roundtrip_witness :
    wfNote ⟨str "Call John", [str "todo", str "perso"], ⟨2018, 12, 22, 12, 36, 11⟩⟩ ∧
      note_from_yaml (noteStr ⟨str "Call John", [str "todo", str "perso"],
        ⟨2018, 12, 22, 12, 36, 11⟩⟩) =
        some ⟨str "Call John", [str "todo", str "perso"], ⟨2018, 12, 22, 12, 36, 11⟩⟩ :=
  ⟨by decide, c1_parse_render_roundtrip _ (by decide)⟩

/-- C2 counterexample: `Deserialize(Serialize(c))` does not yield a
collection for every `c` — on the empty collection the serialized mapping
is empty and `from_yaml` raises on `max()` of no keys. -/
theorem c2_counterexample : nt_from_yaml (nt_to_yaml emptyNT) = none := rfl

/-- C2 (amended): for every collection whose `notes` mapping is non-empty
and whose notes are well formed (labels non-empty, labels and message free
of the separator, bracket and newline characters that derail the parse,
year in `1969..2068`), deserializing the serialization yields a collection
with the identical `notes` content, and Invariant A holds for it: every
label of every stored note maps in the rebuilt `label_id_map` to a list
containing that note's id. -/
theorem c2_serialize_roundtrip (c : NoteTaker) (h1 : c.notes ≠ [])
    (h2 : ∀ p ∈ c.notes, wfNote p.2) :
    ∃ c', nt_from_yaml (nt_to_yaml c) = some c' ∧ c'.notes = c.notes ∧ invariantA c' := by
  have hp : parseAll (nt_to_yaml c) = some c.notes := parseAll_map c.notes h2
  obtain ⟨q, qs, hq⟩ : ∃ q qs, c.notes = q :: qs := by
    cases hv : c.notes with
    | nil => exact absurd hv h1
    | cons a b => exact ⟨a, b, rfl⟩
  have hm : (c.notes.map Prod.fst).max? = some ((qs.map Prod.fst).foldl max q.1) := by
    rw [hq]; rfl
  refine ⟨⟨(qs.map Prod.fst).foldl max q.1 + 1, c.notes, buildIndex c.notes⟩, ?_, rfl, ?_⟩
  · simp only [nt_from_yaml, hp, hm]
  · intro i note hmem lab hlab
    exact buildIndex_invariantA c.notes i note hmem lab hlab

/-- Witness for C2 at a concrete two-note collection. -/
theorem c2_serialize_roundtrip_witness :
    (⟨2, [(0, ⟨str "Call John", [str "todo", str "perso"], ⟨2018, 12, 22, 12, 36, 11⟩⟩),
         (1, ⟨str "Solve bug", [str "todo"], ⟨2018, 12, 31, 12, 36, 11⟩⟩)],
      [(str "todo", [0, 1]), (str "perso", [0])]⟩ : NoteTaker).notes ≠ [] ∧
    (∀ p ∈ (⟨2, [(0, ⟨str "Call John", [str "todo", str "perso"], ⟨2018, 12, 22, 12, 36, 11⟩⟩),
         (1, ⟨str "Solve bug", [str "todo"], ⟨2018, 12, 31, 12, 36, 11⟩⟩)],
      [(str "todo", [0, 1]), (str "perso", [0])]⟩ : NoteTaker).notes, wfNote p.2) ∧
    (∃ c', nt_from_yaml (nt_to_yaml
      ⟨2, [(0, ⟨str "Call John", [str "todo", str "perso"], ⟨2018, 12, 22, 12, 36, 11⟩⟩),
         (1, ⟨str "Solve bug", [str "todo"], ⟨2018, 12, 31, 12, 36, 11⟩⟩)],
      [(str "todo", [0, 1]), (str "perso", [0])]⟩) = some c' ∧
      c'.notes = [(0, ⟨str "Call John", [str "todo", str "perso"], ⟨2018, 12, 22, 12, 36, 11⟩⟩),
         (1, ⟨str "Solve bug", [str "todo"], ⟨2018, 12, 31, 12, 36, 11⟩⟩)] ∧ invariantA c') :=
  ⟨by decide, by decide, c2_serialize_roundtrip _ (by decide) (by decide)⟩

/-- C3: starting from the empty collection, for every sequence of
`add_note` and `delete_note` calls the ids assigned by the successive
`add_note` calls are exactly `0, 1, 2, ...` in order — strictly increasing,
no gaps at creation time, and an id is never assigned twice even after the
note with that id is deleted (`delete_note` never touches `current_id`). -/
theorem c3_ids_are_range (ops : List NTOp) :
    (runOps emptyNT ops).2 = List.range (numAdds ops) := by
  rw [runOps_ids ops emptyNT]
  simp [emptyNT]

/-- C4: deleting an id absent from `notes` raises (`KeyError`, the
specification's NotFoundError) and leaves the collection completely
unchanged — the error state is the original collection, so `notes`,
`label_id_map` and `current_id` all keep their pre-call values. -/
theorem c4_delete_absent_unchanged (nt : NoteTaker) (i : Nat)
    (h : alookup nt.notes i = none) : delete_note nt i = Except.error nt := by
  simp only [delete_note, h]

/-- Witness for C4 at a concrete collection and an absent id. -/
theorem c4_delete_absent_unchanged_witness :
    alookup (⟨1, [(0, ⟨str "x", [str "todo"], ⟨2018, 12, 22, 12, 36, 11⟩⟩)],
      [(str "todo", [0])]⟩ : NoteTaker).notes 5 = none ∧
    delete_note (⟨1, [(0, ⟨str "x", [str "todo"], ⟨2018, 12, 22, 12, 36, 11⟩⟩)],
      [(str "todo", [0])]⟩ : NoteTaker) 5 =
      Except.error ⟨1, [(0, ⟨str "x", [str "todo"], ⟨2018, 12, 22, 12, 36, 11⟩⟩)],
        [(str "todo", [0])]⟩ :=
  ⟨by decide, c4_delete_absent_unchanged _ 5 (by decide)⟩

/-- C5 counterexample: `find_note_id` on a label with no entry in
`label_id_map` does not return an empty list — `self.label_id_map[label]`
raises `KeyError` (modelled as `none`). -/
theorem c5_counterexample : find_note_id emptyNT (str "x") ≠ some [] := by decide

/-- C5 (amended): when the label has an entry in `label_id_map`,
`find_note_id` returns that list filtered to ids still present in `notes`;
when the label has no entry it raises `KeyError` instead of returning an
empty list. -/
theorem c5_find_by_label (nt : NoteTaker) (lab : Str) (ids : List Nat)
    (h : alookup nt.label_id_map lab = some ids) :
    find_note_id nt lab = some (ids.filter (fun i => (alookup nt.notes i).isSome)) := by
  simp only [find_note_id, h]

/-- Witness for C5 at a collection with a stale index entry (id 1 was
deleted from `notes` but not from the label list): the stale id is
filtered out. -/
theorem c5_find_by_label_witness :
    alookup (⟨2, [(0, ⟨str "x", [str "a"], ⟨2018, 12, 22, 12, 36, 11⟩⟩)],
      [(str "a", [0, 1])]⟩ : NoteTaker).label_id_map (str "a") = some [0, 1] ∧
    find_note_id (⟨2, [(0, ⟨str "x", [str "a"], ⟨2018, 12, 22, 12, 36, 11⟩⟩)],
      [(str "a", [0, 1])]⟩ : NoteTaker) (str "a") =
      some ([0, 1].filter (fun i =>
        (alookup (⟨2, [(0, ⟨str "x", [str "a"], ⟨2018, 12, 22, 12, 36, 11⟩⟩)],
          [(str "a", [0, 1])]⟩ : NoteTaker).notes i).isSome)) :=
  ⟨by decide, c5_find_by_label _ (str "a") [0, 1] (by decide)⟩

/-- C6 counterexample: deleting a present id whose label has an index list
without that id does not complete: the `remove` raises `ValueError` after
the note has already been popped from `notes` (partial mutation). -/
theorem c6_counterexample :
    delete_note ⟨1, [(0, ⟨str "x", [str "a"], ⟨2018, 12, 31, 12, 36, 11⟩⟩)],
      [(str "a", [])]⟩ 0 =
      Except.error ⟨1, [], [(str "a", [])]⟩ := rfl

/-- C6 (amended): a missing index entry is not tolerated.  For every
collection and id present in `notes`, if some label of the note has no
`label_id_map` entry containing the id, `delete_note` raises an uncaught
error (`KeyError` or `ValueError`) instead of completing. -/
theorem c6_delete_index_drift_fails (nt : NoteTaker) (i : Nat) (note : Note) (lab : Str)
    (h1 : alookup nt.notes i = some note) (h2 : lab ∈ note.labels)
    (h3 : i ∉ (alookup nt.label_id_map lab).getD []) :
    ∃ nt', delete_note nt i = Except.error nt' := by
  obtain ⟨m', hm'⟩ := foldlM_remove_fails note.labels i nt.label_id_map ⟨lab, h2, h3⟩
  exact ⟨⟨nt.current_id, eraseKey nt.notes i, m'⟩, by simp only [delete_note, h1, hm']⟩

/-- Witness for C6 at a concrete drifted collection. -/
theorem c6_delete_index_drift_fails_witness :
    alookup (⟨1, [(0, ⟨str "y", [str "b"], ⟨2018, 12, 22, 12, 36, 11⟩⟩)],
      [(str "b", [7])]⟩ : NoteTaker).notes 0 =
      some ⟨str "y", [str "b"], ⟨2018, 12, 22, 12, 36, 11⟩⟩ ∧
    str "b" ∈ (⟨str "y", [str "b"], ⟨2018, 12, 22, 12, 36, 11⟩⟩ : Note).labels ∧
    0 ∉ (alookup (⟨1, [(0, ⟨str "y", [str "b"], ⟨2018, 12, 22, 12, 36, 11⟩⟩)],
      [(str "b", [7])]⟩ : NoteTaker).label_id_map (str "b")).getD [] ∧
    (∃ nt', delete_note (⟨1, [(0, ⟨str "y", [str "b"], ⟨2018, 12, 22, 12, 36, 11⟩⟩)],
      [(str "b", [7])]⟩ : NoteTaker) 0 = Except.error nt') :=
  ⟨by decide, by decide, by decide,
    c6_delete_index_drift_fails _ 0 ⟨str "y", [str "b"], ⟨2018, 12, 22, 12, 36, 11⟩⟩
      (str "b") (by decide) (by decide) (by decide)⟩

/-- C7: `find_note` on an integer field that is a present id returns the
mapping of size 1 containing exactly that id's note; the label-shaped
lookup on the same field cannot contribute because `label_id_map` is keyed
by strings, so an `int` key always raises the caught `KeyError` (in
particular a label `"0"` never collides with id `0`). -/
theorem c7_find_by_id (nt : NoteTaker) (i : Nat) (note : Note)
    (h : alookup nt.notes i = some note) :
    find_note nt (SearchField.fid i) = [(i, note)] := by
  simp only [find_note, h]

/-- Witness for C7: a collection containing note id 0; `find_note 0`
returns that single note. -/
theorem c7_find_by_id_witness :
    alookup (⟨1, [(0, ⟨str "x", [str "todo"], ⟨2018, 12, 22, 12, 36, 11⟩⟩)],
      [(str "todo", [0])]⟩ : NoteTaker).notes 0 =
      some ⟨str "x", [str "todo"], ⟨2018, 12, 22, 12, 36, 11⟩⟩ ∧
    find_note (⟨1, [(0, ⟨str "x", [str "todo"], ⟨2018, 12, 22, 12, 36, 11⟩⟩)],
      [(str "todo", [0])]⟩ : NoteTaker) (SearchField.fid 0) =
      [(0, ⟨str "x", [str "todo"], ⟨2018, 12, 22, 12, 36, 11⟩⟩)] :=
  ⟨by decide, c7_find_by_id _ 0 _ (by decide)⟩

/-- C8 counterexample: deserializing an empty persisted mapping is an
error (`max()` of an empty sequence raises `ValueError`), not a valid
collection with `next_id = 0`. -/
theorem c8_counterexample : nt_from_yaml [] = none := rfl

/-- C8 (amended): when every persisted scalar parses and the mapping is
non-empty (its keys have a maximum `m`), `from_yaml` yields the collection
with `current_id = m + 1`, the parsed notes, and the rebuilt index;
an empty persisted mapping raises instead of yielding `next_id = 0`. -/
theorem c8_next_id_max_plus_one (pairs : List (Nat × Str)) (d : List (Nat × Note)) (m : Nat)
    (h1 : parseAll pairs = some d) (h2 : (d.map Prod.fst).max? = some m) :
    nt_from_yaml pairs = some ⟨m + 1, d, buildIndex d⟩ := by
  simp only [nt_from_yaml, h1, h2]

/-- Witness for C8 on a persisted mapping with the single id 5 (ids need
not be contiguous): `next_id` becomes 6. -/
theorem c8_next_id_max_plus_one_witness :
    parseAll ([(5, ⟨str "x", [str "l"], ⟨2018, 12, 31, 12, 36, 11⟩⟩)].map
      (fun p => (p.1, noteStr p.2))) =
      some [(5, ⟨str "x", [str "l"], ⟨2018, 12, 31, 12, 36, 11⟩⟩)] ∧
    ([(5, (⟨str "x", [str "l"], ⟨2018, 12, 31, 12, 36, 11⟩⟩ : Note))].map Prod.fst).max? =
      some 5 ∧
    nt_from_yaml ([(5, ⟨str "x", [str "l"], ⟨2018, 12, 31, 12, 36, 11⟩⟩)].map
      (fun p => (p.1, noteStr p.2))) =
      some ⟨6, [(5, ⟨str "x", [str "l"], ⟨2018, 12, 31, 12, 36, 11⟩⟩)],
        buildIndex [(5, ⟨str "x", [str "l"], ⟨2018, 12, 31, 12, 36, 11⟩⟩)]⟩ :=
  ⟨parseAll_map _ (by decide), by decide,
    c8_next_id_max_plus_one _ _ 5 (parseAll_map _ (by decide)) (by decide)⟩

/-- C9: `add_note` always succeeds and stores, under the assigned id
`current_id`, a note whose labels are exactly `["undefined"]` when the
caller supplies none, and otherwise the caller's labels each lowercased,
in the caller's order, duplicates kept; `current_id` is incremented. -/
theorem c9_add_note_labels (nt : NoteTaker) (msg : Str) (labs : List Str) (d : PyDate) :
    alookup (add_note nt msg labs d).notes nt.current_id =
      some ⟨msg, if labs.isEmpty then [str "undefined"] else labs.map lowerStr, d⟩ ∧
    (add_note nt msg labs d).current_id = nt.current_id + 1 :=
  ⟨alookup_setv_self nt.notes nt.current_id _, rfl⟩

/-- C10: in a collection built solely by `add_note` calls every key of
`label_id_map` is lowercase, so `find_note` with a string field containing
an ASCII uppercase letter finds nothing through the label lookup (and an
id lookup cannot fire for a string), hence returns the empty mapping. -/
theorem c10_uppercase_label_lookup (l : List (Str × List Str × PyDate)) (s : Str)
    (hs : ∃ c ∈ s, c ∈ upperChars) :
    find_note (runAdds l) (SearchField.flabel s) = [] := by
  obtain ⟨c, hc, hcu⟩ := hs
  have hnone : alookup (runAdds l).label_id_map s = none := by
    apply alookup_eq_none
    intro p hp heq
    exact (runAdds_keysNoUpper l p hp c (by rw [← heq]; exact hc)) hcu
  simp only [find_note, find_note_id, hnone]

/-- Witness for C10: after `add_note("x", "ToDo")` the stored label is
`"todo"`; searching `"ToDo"` finds nothing while searching `"todo"` finds
the note. -/
theorem c10_uppercase_label_lookup_witness :
    (∃ c ∈ str "ToDo", c ∈ upperChars) ∧
    find_note (runAdds [(str "x", [str "ToDo"], ⟨2018, 12, 22, 12, 36, 11⟩)])
      (SearchField.flabel (str "ToDo")) = [] ∧
    find_note (runAdds [(str "x", [str "ToDo"], ⟨2018, 12, 22, 12, 36, 11⟩)])
      (SearchField.flabel (str "todo")) =
      [(0, ⟨str "x", [str "todo"], ⟨2018, 12, 22, 12, 36, 11⟩⟩)] :=
  ⟨by decide, c10_uppercase_label_lookup _ _ (by decide), by decide⟩
